import Mathlib

/-!
Verification of the ReservoirSampling operator
(src/caffe2/operators/reservoir_sampling.cc).

The operator keeps a fixed-capacity reservoir of data rows ("blocks"),
a 64-bit visit counter, and (optionally) a pair of index structures:
a key → slot map (`object_to_pos_map`) and a slot → key array
(`pos_to_object`).  We embed the state mutated by `RunOnDevice` and the
per-row loop body as pure Lean functions.  Machine `int64_t` values are
modelled as `Int`; tensors are modelled by their dimension lists plus a
flat list of opaque row payloads (`Block`).  The random draw
`std::uniform_int_distribution<int64_t>(0, *num_visited)(gen)` is
modelled by an oracle `gen : Int → Int` applied to the current visit
count (along any execution the draw sites have pairwise distinct visit
counts, so indexing draws by the visit count is faithful); the
distribution contract `0 ≤ gen v ∧ gen v ≤ v` is carried as a hypothesis
where a claim needs it.
-/

/-- A row payload.  `RunOnDevice` copies rows byte-for-byte and never
inspects them, so an opaque (here: integer) payload is faithful. -/
abbrev Block := Int

/-- `std::map<int64_t,int32_t>` lookup (`count` / `find`), embedded on an
association list. -/
def mapLookup (m : List (Int × Nat)) (k : Int) : Option Nat :=
  match m with
  | [] => none
  | e :: t => if e.1 = k then some e.2 else mapLookup t k

/-- `std::map::erase(k)`: remove the binding of key `k`. -/
def mapErase (m : List (Int × Nat)) (k : Int) : List (Int × Nat) :=
  match m with
  | [] => []
  | e :: t => if e.1 = k then mapErase t k else e :: mapErase t k

/-- `std::map::emplace(k, v)`: insert only when `k` is absent. -/
def mapEmplace (m : List (Int × Nat)) (k : Int) (v : Nat) : List (Int × Nat) :=
  if (mapLookup m k).isSome then m else (k, v) :: m

/-- The caller-owned state mutated by `RunOnDevice`:
* `cap` — the `num_to_collect` argument (enforced positive at construction);
* `occ` / `rowShape` — the dims of the `RESERVOIR` output tensor
  (`occ` is dim 0, the occupied row count);
* `reservoir` — the reserved storage, `cap` slots;
* `numVisited` — the `NUM_VISITED` scalar (`int64_t`);
* `visitScalar` — whether the `NUM_VISITED` tensor is 0-dimensional;
* `posToObject` — the `POS_TO_OBJECT` int64 array (slot → key);
* `objectToPosMap` — the `OBJECT_TO_POS_MAP` map (key → slot). -/
structure RState where
  cap : Nat
  occ : Nat
  rowShape : List Nat
  reservoir : List Block
  numVisited : Int
  visitScalar : Bool
  posToObject : List Int
  objectToPosMap : List (Int × Nat)
deriving DecidableEq, Repr

/-- Fresh externally-initialized state: empty reservoir, zero counter,
zero-filled (freshly allocated) storage — the original code relies on
this incidental zero fill of `pos_to_object`. -/
def initState (C : Nat) : RState :=
  { cap := C
    occ := 0
    rowShape := []
    reservoir := List.replicate C 0
    numVisited := 0
    visitScalar := true
    posToObject := List.replicate C 0
    objectToPosMap := [] }

/-- One batch of inputs: the dims of `DATA` (dim 0 = row count), its
rows, and the optional `OBJECT_ID` vector. -/
structure Batch where
  inDims : List Nat
  rows : List Block
  oids : Option (List Int)
deriving DecidableEq

/-- The error conditions surfaced by the `CAFFE_ENFORCE` checks,
grouped by the taxonomy the operator's callers observe. -/
inductive Err where
  | shapeMismatch
  | sizeMismatch
  | configError
  | internalFault
deriving DecidableEq, Repr

/-- Slot selection of the sampling loop (lines 97–110): append at
`num_visited` while below capacity, otherwise keep the draw `r` when it
is below capacity and return `-1` (discard) when it is not. -/
def samplePos (cap : Nat) (v : Int) (r : Int) : Int :=
  if v < (cap : Int) then v
  else if (cap : Int) ≤ r then -1 else r

/-- One iteration of the per-row loop (lines 91–133).  `tracking` is
`object_id_data && object_to_pos_map` (the schema couples the id input
with the map outputs).  A row whose key is already in the map is
skipped; otherwise a slot is chosen by `samplePos`; a nonnegative slot
receives the row's bytes and — when tracking — the slot/key indices are
rebound; the visit counter advances on every non-skipped row. -/
def processRow (tracking : Bool) (gen : Int → Int) (oid : Int) (row : Block)
    (s : RState) : RState :=
  if tracking && (mapLookup s.objectToPosMap oid).isSome then s
  else
    let pos := samplePos s.cap s.numVisited (gen s.numVisited)
    if pos < 0 then { s with numVisited := s.numVisited + 1 }
    else
      let p := pos.toNat
      let s1 := { s with reservoir := s.reservoir.set p row }
      let s2 :=
        if tracking then
          { s1 with
              posToObject := s1.posToObject.set p oid
              objectToPosMap :=
                mapEmplace (mapErase s1.objectToPosMap (s1.posToObject.getD p 0))
                  oid p }
        else s1
      { s2 with numVisited := s2.numVisited + 1 }

/-- The whole sampling loop over a batch's (key, row) pairs. -/
def runRows (tracking : Bool) (gen : Int → Int) (l : List (Int × Block))
    (s : RState) : RState :=
  l.foldl (fun t x => processRow tracking gen x.1 x.2 t) s

/-- `output->size() > 0` (line 28): the reserved tensor counts as
initialized when its element count is positive. -/
def outputInitialized (s : RState) : Bool :=
  0 < s.occ * s.rowShape.prod

/-- The shape agreement checks of lines 30–33: equal rank and equal
trailing dimensions. -/
def shapeMatches (s : RState) (b : Batch) : Bool :=
  (s.rowShape.length + 1 == b.inDims.length) && (s.rowShape == b.inDims.tail)

/-- `countNewEntries` (lines 152–168): the batch's row count when no id
vector is given, otherwise the number of ids absent from the map. -/
def countNewEntries (oids : Option (List Int)) (n : Nat)
    (m : List (Int × Nat)) : Nat :=
  match oids with
  | none => n
  | some l => (l.filter (fun o => (mapLookup m o).isNone)).length

/-- The (key, row) pairs the loop iterates over; a missing id input
contributes no keys (tracking is off, the key is never read). -/
def pairsOf (b : Batch) : List (Int × Block) :=
  match b.oids with
  | some l => l.zip b.rows
  | none => (List.replicate b.rows.length 0).zip b.rows

/-- The state after the up-front occupied-region resize of lines 50–56:
`occ` becomes `min(capacity, occupiedBefore + min(countNewEntries, capacity))`
whenever the reservoir was not yet full (and the resize also installs
the incoming row shape); nothing else changes. -/
def resizedState (b : Batch) (s : RState) : RState :=
  if (if outputInitialized s then s.occ else 0) < s.cap then
    { s with
        occ := min s.cap ((if outputInitialized s then s.occ else 0)
          + min (countNewEntries b.oids (b.inDims.headD 0) s.objectToPosMap) s.cap)
        rowShape := b.inDims.tail }
  else s

/-- `RunOnDevice` (lines 22–137) on one batch.  The returned state is
the state as mutated up to the point of return, so a failing check
reports both the error and the partially updated state — matching the
in-place mutation of the original. -/
def runBatch (gen : Int → Int) (b : Batch) (s : RState) : RState × Option Err :=
  if b.inDims.length < 1 then (s, some Err.shapeMismatch)
  else if outputInitialized s && !(shapeMatches s b) then (s, some Err.shapeMismatch)
  else
    let n := b.inDims.headD 0
    if n = 0 then
      if outputInitialized s then (s, none)
      else ({ s with occ := n, rowShape := b.inDims.tail }, none)
    else
      let numNew := countNewEntries b.oids n s.objectToPosMap
      let s1 := resizedState b s
      if !s1.visitScalar then (s1, some Err.shapeMismatch)
      else if s1.numVisited < 0 then (s1, some Err.configError)
      else
        let oidLenOk := match b.oids with
          | some l => l.length == n
          | none => true
        if !oidLenOk then (s1, some Err.sizeMismatch)
        else
          let s2 := runRows b.oids.isSome gen (pairsOf b) s1
          if s2.numVisited == s1.numVisited + (numNew : Int) then (s2, none)
          else (s2, some Err.internalFault)

/-! ### Structural lemmas about one loop iteration -/

/-- A row whose key is already bound is skipped: the state is returned
unchanged (lines 92–96). -/
theorem processRow_skip (tracking : Bool) (gen : Int → Int) (oid : Int)
    (row : Block) (s : RState)
    (h : (tracking && (mapLookup s.objectToPosMap oid).isSome) = true) :
    processRow tracking gen oid row s = s := by
  unfold processRow
  rw [h]
  simp

theorem processRow_numVisited (tracking : Bool) (gen : Int → Int) (oid : Int)
    (row : Block) (s : RState)
    (h : (tracking && (mapLookup s.objectToPosMap oid).isSome) = false) :
    (processRow tracking gen oid row s).numVisited = s.numVisited + 1 := by
  unfold processRow
  rw [h]
  cases tracking <;> simp <;> split <;> simp

theorem processRow_reservoir (tracking : Bool) (gen : Int → Int) (oid : Int)
    (row : Block) (s : RState)
    (h : (tracking && (mapLookup s.objectToPosMap oid).isSome) = false) :
    (processRow tracking gen oid row s).reservoir =
      (if samplePos s.cap s.numVisited (gen s.numVisited) < 0 then s.reservoir
       else s.reservoir.set (samplePos s.cap s.numVisited (gen s.numVisited)).toNat row) := by
  unfold processRow
  rw [h]
  cases tracking <;> simp <;> split <;> simp

theorem processRow_posToObject (tracking : Bool) (gen : Int → Int) (oid : Int)
    (row : Block) (s : RState)
    (h : (tracking && (mapLookup s.objectToPosMap oid).isSome) = false) :
    (processRow tracking gen oid row s).posToObject =
      (if samplePos s.cap s.numVisited (gen s.numVisited) < 0 then s.posToObject
       else if tracking then
         s.posToObject.set (samplePos s.cap s.numVisited (gen s.numVisited)).toNat oid
       else s.posToObject) := by
  unfold processRow
  rw [h]
  cases tracking <;> simp <;> split <;> simp

theorem processRow_map (tracking : Bool) (gen : Int → Int) (oid : Int)
    (row : Block) (s : RState)
    (h : (tracking && (mapLookup s.objectToPosMap oid).isSome) = false) :
    (processRow tracking gen oid row s).objectToPosMap =
      (if samplePos s.cap s.numVisited (gen s.numVisited) < 0 then s.objectToPosMap
       else if tracking then
         mapEmplace
           (mapErase s.objectToPosMap
             (s.posToObject.getD (samplePos s.cap s.numVisited (gen s.numVisited)).toNat 0))
           oid (samplePos s.cap s.numVisited (gen s.numVisited)).toNat
       else s.objectToPosMap) := by
  unfold processRow
  rw [h]
  cases tracking <;> simp <;> split <;> simp

theorem processRow_cap (tracking : Bool) (gen : Int → Int) (oid : Int)
    (row : Block) (s : RState) :
    (processRow tracking gen oid row s).cap = s.cap := by
  unfold processRow
  cases tracking <;> dsimp only <;> split <;> first | rfl | (split <;> rfl)

theorem processRow_occ (tracking : Bool) (gen : Int → Int) (oid : Int)
    (row : Block) (s : RState) :
    (processRow tracking gen oid row s).occ = s.occ := by
  unfold processRow
  cases tracking <;> dsimp only <;> split <;> first | rfl | (split <;> rfl)

/-! ### Per-row behaviour (claims C1, C4, C10) -/

/-- C1: a non-duplicate row processed at visit count `v` is appended at
slot exactly `v` when `v < capacity`; otherwise, with the draw `r` from
`[0, v]`, it replaces slot `r` when `r < capacity` and is discarded
(no write) when `r ≥ capacity`; in all three cases the visit count is
incremented by exactly one. -/
theorem c1_nonduplicate_row_cases (tracking : Bool) (gen : Int → Int) (oid : Int)
    (row : Block) (s : RState)
    (hskip : (tracking && (mapLookup s.objectToPosMap oid).isSome) = false)
    (hv : 0 ≤ s.numVisited)
    (hlo : 0 ≤ gen s.numVisited) (_hhi : gen s.numVisited ≤ s.numVisited) :
    (processRow tracking gen oid row s).numVisited = s.numVisited + 1
    ∧ (s.numVisited < (s.cap : Int) →
        (processRow tracking gen oid row s).reservoir
          = s.reservoir.set s.numVisited.toNat row)
    ∧ ((s.cap : Int) ≤ s.numVisited → gen s.numVisited < (s.cap : Int) →
        (processRow tracking gen oid row s).reservoir
          = s.reservoir.set (gen s.numVisited).toNat row)
    ∧ ((s.cap : Int) ≤ s.numVisited → (s.cap : Int) ≤ gen s.numVisited →
        (processRow tracking gen oid row s).reservoir = s.reservoir) := by
  refine ⟨processRow_numVisited _ _ _ _ _ hskip, ?_, ?_, ?_⟩
  · intro hc
    rw [processRow_reservoir _ _ _ _ _ hskip]
    unfold samplePos
    rw [if_pos hc, if_neg (not_lt.mpr hv)]
  · intro hc hr
    rw [processRow_reservoir _ _ _ _ _ hskip]
    unfold samplePos
    rw [if_neg (not_lt.mpr hc), if_neg (not_le.mpr hr), if_neg (not_lt.mpr hlo)]
  · intro hc hr
    rw [processRow_reservoir _ _ _ _ _ hskip]
    unfold samplePos
    rw [if_neg (not_lt.mpr hc), if_pos hr, if_pos (by norm_num)]

theorem c1_nonduplicate_row_cases_witness :
    ((false && (mapLookup (initState 2).objectToPosMap 3).isSome) = false
      ∧ (0 : Int) ≤ (initState 2).numVisited)
    ∧ (processRow false (fun _ => 0) 3 7 (initState 2)).numVisited
        = (initState 2).numVisited + 1 :=
  ⟨⟨by decide, by decide⟩,
    (c1_nonduplicate_row_cases false (fun _ => 0) 3 7 (initState 2)
      (by decide) (by decide) (by decide) (by decide)).1⟩

/-- C4: a row whose key is already bound in the map is skipped entirely:
the state (visit count, reservoir bytes, both index structures) is
returned unchanged. -/
theorem c4_duplicate_row_skipped (gen : Int → Int) (oid : Int) (row : Block)
    (s : RState) (h : (mapLookup s.objectToPosMap oid).isSome = true) :
    processRow true gen oid row s = s :=
  processRow_skip true gen oid row s (by rw [h]; rfl)

/-- A one-slot-occupied tracked state used as concrete input below. -/
def oneRowState : RState :=
  { initState 2 with objectToPosMap := [(5, 0)], posToObject := [5, 0], numVisited := 1, occ := 1 }

theorem c4_duplicate_row_skipped_witness :
    (mapLookup oneRowState.objectToPosMap 5).isSome = true
    ∧ processRow true (fun _ => 0) 5 99 oneRowState = oneRowState :=
  ⟨by decide, c4_duplicate_row_skipped (fun _ => 0) 5 99 oneRowState (by decide)⟩

/-- C10: under the enforced preconditions (`num_visited ≥ 0` and a
nonnegative draw), every chosen slot is `< capacity`; a row either
leaves the reservoir and owner array untouched or writes both at one
common in-range slot. -/
theorem c10_writes_in_range (tracking : Bool) (gen : Int → Int) (oid : Int)
    (row : Block) (s : RState)
    (hv : 0 ≤ s.numVisited) (hr : 0 ≤ gen s.numVisited) :
    (0 ≤ samplePos s.cap s.numVisited (gen s.numVisited) →
      (samplePos s.cap s.numVisited (gen s.numVisited)).toNat < s.cap)
    ∧ ((processRow tracking gen oid row s).reservoir = s.reservoir
        ∧ (processRow tracking gen oid row s).posToObject = s.posToObject
      ∨ ∃ p, p < s.cap
          ∧ (processRow tracking gen oid row s).reservoir = s.reservoir.set p row
          ∧ ((processRow tracking gen oid row s).posToObject = s.posToObject
             ∨ (processRow tracking gen oid row s).posToObject
                 = s.posToObject.set p oid)) := by
  have hbound : 0 ≤ samplePos s.cap s.numVisited (gen s.numVisited) →
      (samplePos s.cap s.numVisited (gen s.numVisited)).toNat < s.cap := by
    intro hpos
    unfold samplePos at hpos ⊢
    by_cases hc : s.numVisited < (s.cap : Int)
    · rw [if_pos hc]; omega
    · rw [if_neg hc] at hpos ⊢
      by_cases hd : (s.cap : Int) ≤ gen s.numVisited
      · rw [if_pos hd] at hpos; omega
      · rw [if_neg hd]; omega
  refine ⟨hbound, ?_⟩
  by_cases hskip : (tracking && (mapLookup s.objectToPosMap oid).isSome) = true
  · left
    rw [processRow_skip _ _ _ _ _ hskip]
    exact ⟨rfl, rfl⟩
  · have hskip : (tracking && (mapLookup s.objectToPosMap oid).isSome) = false :=
      Bool.not_eq_true _ ▸ Bool.eq_false_iff.mpr hskip
    by_cases hdisc : samplePos s.cap s.numVisited (gen s.numVisited) < 0
    · left
      rw [processRow_reservoir _ _ _ _ _ hskip, processRow_posToObject _ _ _ _ _ hskip,
        if_pos hdisc, if_pos hdisc]
      exact ⟨rfl, rfl⟩
    · right
      refine ⟨(samplePos s.cap s.numVisited (gen s.numVisited)).toNat,
        hbound (not_lt.mp hdisc), ?_, ?_⟩
      · rw [processRow_reservoir _ _ _ _ _ hskip, if_neg hdisc]
      · rw [processRow_posToObject _ _ _ _ _ hskip, if_neg hdisc]
        cases tracking
        · left; rfl
        · right; rfl

theorem c10_writes_in_range_witness :
    ((0 : Int) ≤ (initState 2).numVisited ∧ (0 : Int) ≤ 1)
    ∧ ((processRow true (fun _ => 1) 4 8 (initState 2)).reservoir
          = (initState 2).reservoir
        ∧ (processRow true (fun _ => 1) 4 8 (initState 2)).posToObject
          = (initState 2).posToObject
      ∨ ∃ p, p < (initState 2).cap
          ∧ (processRow true (fun _ => 1) 4 8 (initState 2)).reservoir
              = (initState 2).reservoir.set p 8
          ∧ ((processRow true (fun _ => 1) 4 8 (initState 2)).posToObject
                = (initState 2).posToObject
             ∨ (processRow true (fun _ => 1) 4 8 (initState 2)).posToObject
                 = (initState 2).posToObject.set p 4)) :=
  ⟨⟨by decide, by decide⟩,
    (c10_writes_in_range true (fun _ => 1) 4 8 (initState 2) (by decide) (by decide)).2⟩

/-! ### The claimed key/slot bijection -/

/-- Number of occupied reservoir slots after the loop has run:
slots fill from `0` while `num_visited < cap`. -/
def occupiedCount (s : RState) : Nat := min s.numVisited.toNat s.cap

/-- The bijection property claimed for the index structures: the owner
key recorded for every occupied slot maps back to exactly that slot,
and no key occurs twice in the map. -/
def bijOk (s : RState) : Prop :=
  (∀ p, p < occupiedCount s →
    mapLookup s.objectToPosMap (s.posToObject.getD p 0) = some p)
  ∧ (s.objectToPosMap.map Prod.fst).Nodup

instance (s : RState) : Decidable (bijOk s) := by
  unfold bijOk
  infer_instance

/-- C3 fails as stated: with object id `0` in play the bijection breaks.
Key `0` is admitted to slot 0; the later append of key `7` to the fresh
slot 1 reads the zero-initialized owner entry `0` and erases key `0` --
the occupant of slot 0 -- from the map, leaving slot 0 with no
consistent map entry. -/
theorem c3_counterexample :
    ¬ bijOk (runRows true (fun _ => 0) [(0, 10), (7, 20)] (initState 2)) := by
  decide

/-- C2 fails on the code (and the code trips its own end-of-batch
sanity assertion): a batch that repeats a previously-unseen key admits
the first copy (binding the key), skips the second, so the counter
advances by 1 while `countNewEntries` — computed against the map as it
stood before the batch — returns 2, and `RunOnDevice` aborts at the
`CAFFE_ENFORCE_EQ` of line 135. -/
theorem c2_counter_fault_eval :
    (runBatch (fun _ => 0) { inDims := [2], rows := [10, 20], oids := some [5, 5] }
        (initState 2)).2 = some Err.internalFault
    ∧ (runBatch (fun _ => 0) { inDims := [2], rows := [10, 20], oids := some [5, 5] }
        (initState 2)).1.numVisited = 1
    ∧ countNewEntries (some [5, 5]) 2 (initState 2).objectToPosMap = 2 := by
  decide

/-- C7 fails as stated: the id-length check (line 87) runs only after
`countNewEntries` (line 50) and after the occupied-region resize
(line 55), so on a SizeMismatch the occupied size has already grown
from 0 to 2. -/
theorem c7_counterexample :
    (runBatch (fun _ => 0) { inDims := [1], rows := [10], oids := some [5, 6] }
        (initState 2)).2 = some Err.sizeMismatch
    ∧ (runBatch (fun _ => 0) { inDims := [1], rows := [10], oids := some [5, 6] }
        (initState 2)).1.occ = 2
    ∧ (initState 2).occ = 0 := by
  decide

/-- C8 fails as stated for empty batches: a zero-row batch returns at
line 47 before the visit-counter checks of lines 65–67 ever run, so a
non-scalar counter holding a negative value is accepted. -/
theorem c8_counterexample :
    (runBatch (fun _ => 0) { inDims := [0], rows := [], oids := none }
        { initState 2 with visitScalar := false, numVisited := -5 }).2 = none := by
  decide

/-! ### Batch-level validation behaviour (claims C9, C8, C7) -/

/-- C9: an empty batch against a never-initialized reservoir succeeds,
adopts the incoming batch's row shape with zero occupied rows, copies
no row data, and leaves the visit count untouched at 0. -/
theorem c9_empty_first_batch (gen : Int → Int) (b : Batch) (s : RState)
    (hnd : 1 ≤ b.inDims.length) (hn : b.inDims.headD 0 = 0)
    (hocc : s.occ = 0) (hv : s.numVisited = 0) :
    runBatch gen b s = ({ s with occ := 0, rowShape := b.inDims.tail }, none)
    ∧ ({ s with occ := 0, rowShape := b.inDims.tail } : RState).numVisited = 0
    ∧ ({ s with occ := 0, rowShape := b.inDims.tail } : RState).reservoir
        = s.reservoir := by
  have hini : outputInitialized s = false := by
    unfold outputInitialized
    rw [hocc]
    simp
  refine ⟨?_, hv, rfl⟩
  unfold runBatch
  rw [if_neg (by omega), hini]
  simp only [Bool.false_and, Bool.false_eq_true, if_false]
  rw [if_pos hn, hn]

theorem c9_empty_first_batch_witness :
    (1 ≤ ([0, 3] : List Nat).length ∧ (initState 2).occ = 0)
    ∧ runBatch (fun _ => 0) { inDims := [0, 3], rows := [], oids := none }
        (initState 2)
      = ({ initState 2 with occ := 0, rowShape := [3] }, none) :=
  ⟨⟨by decide, by decide⟩,
    (c9_empty_first_batch (fun _ => 0) { inDims := [0, 3], rows := [], oids := none }
      (initState 2) (by decide) (by decide) (by decide) (by decide)).1⟩

/-! ### The resize step leaves everything but the occupied dims alone -/

theorem resizedState_reservoir (b : Batch) (s : RState) :
    (resizedState b s).reservoir = s.reservoir := by
  unfold resizedState
  by_cases h : (if outputInitialized s then s.occ else 0) < s.cap
  · rw [if_pos h]
  · rw [if_neg h]

theorem resizedState_numVisited (b : Batch) (s : RState) :
    (resizedState b s).numVisited = s.numVisited := by
  unfold resizedState
  by_cases h : (if outputInitialized s then s.occ else 0) < s.cap
  · rw [if_pos h]
  · rw [if_neg h]

theorem resizedState_map (b : Batch) (s : RState) :
    (resizedState b s).objectToPosMap = s.objectToPosMap := by
  unfold resizedState
  by_cases h : (if outputInitialized s then s.occ else 0) < s.cap
  · rw [if_pos h]
  · rw [if_neg h]

theorem resizedState_posToObject (b : Batch) (s : RState) :
    (resizedState b s).posToObject = s.posToObject := by
  unfold resizedState
  by_cases h : (if outputInitialized s then s.occ else 0) < s.cap
  · rw [if_pos h]
  · rw [if_neg h]

theorem resizedState_visitScalar (b : Batch) (s : RState) :
    (resizedState b s).visitScalar = s.visitScalar := by
  unfold resizedState
  by_cases h : (if outputInitialized s then s.occ else 0) < s.cap
  · rw [if_pos h]
  · rw [if_neg h]

theorem resizedState_cap (b : Batch) (s : RState) :
    (resizedState b s).cap = s.cap := by
  unfold resizedState
  by_cases h : (if outputInitialized s then s.occ else 0) < s.cap
  · rw [if_pos h]
  · rw [if_neg h]

/-! ### The four exits of the non-empty-batch path -/

/-- On a nonempty batch whose earlier shape checks pass, a non-scalar
visit counter aborts with ShapeMismatch right after the resize. -/
theorem runBatch_visitShapeFail (gen : Int → Int) (b : Batch) (s : RState)
    (hnd : 1 ≤ b.inDims.length)
    (hshape : outputInitialized s = true → shapeMatches s b = true)
    (hn : ¬ b.inDims.headD 0 = 0)
    (hvs : s.visitScalar = false) :
    runBatch gen b s = (resizedState b s, some Err.shapeMismatch) := by
  have hcond : (outputInitialized s && !(shapeMatches s b)) = false := by
    cases h : outputInitialized s
    · rfl
    · rw [hshape h]
      rfl
  unfold runBatch
  rw [if_neg (by omega), hcond]
  simp only [Bool.false_eq_true, if_false]
  rw [if_neg hn, resizedState_visitScalar, hvs]
  rfl

/-- On a nonempty batch whose earlier checks pass, a negative stored
visit count aborts with ConfigurationError right after the resize. -/
theorem runBatch_negVisitFail (gen : Int → Int) (b : Batch) (s : RState)
    (hnd : 1 ≤ b.inDims.length)
    (hshape : outputInitialized s = true → shapeMatches s b = true)
    (hn : ¬ b.inDims.headD 0 = 0)
    (hvs : s.visitScalar = true) (hneg : s.numVisited < 0) :
    runBatch gen b s = (resizedState b s, some Err.configError) := by
  have hcond : (outputInitialized s && !(shapeMatches s b)) = false := by
    cases h : outputInitialized s
    · rfl
    · rw [hshape h]
      rfl
  unfold runBatch
  rw [if_neg (by omega), hcond]
  simp only [Bool.false_eq_true, if_false]
  rw [if_neg hn, resizedState_visitScalar, hvs]
  simp only [Bool.not_true, Bool.false_eq_true, if_false]
  rw [resizedState_numVisited, if_pos hneg]

/-- On a nonempty batch whose earlier checks pass, a mismatched id
vector aborts with SizeMismatch — after `countNewEntries` and the
resize have already happened. -/
theorem runBatch_sizeFail (gen : Int → Int) (b : Batch) (s : RState) (l : List Int)
    (hnd : 1 ≤ b.inDims.length)
    (hshape : outputInitialized s = true → shapeMatches s b = true)
    (hn : ¬ b.inDims.headD 0 = 0)
    (hvs : s.visitScalar = true) (hneg : ¬ s.numVisited < 0)
    (hoid : b.oids = some l) (hlen : l.length ≠ b.inDims.headD 0) :
    runBatch gen b s = (resizedState b s, some Err.sizeMismatch) := by
  have hcond : (outputInitialized s && !(shapeMatches s b)) = false := by
    cases h : outputInitialized s
    · rfl
    · rw [hshape h]
      rfl
  unfold runBatch
  rw [if_neg (by omega), hcond]
  simp only [Bool.false_eq_true, if_false]
  rw [if_neg hn, resizedState_visitScalar, hvs]
  simp only [Bool.not_true, Bool.false_eq_true, if_false]
  rw [resizedState_numVisited, if_neg hneg, hoid]
  have hb : (l.length == b.inDims.headD 0) = false := beq_eq_false_iff_ne.mpr hlen
  dsimp only
  rw [hb]
  rfl

/-- On a nonempty batch for which every validation passes, `RunOnDevice`
runs the sampling loop on the resized state and then applies the
end-of-batch sanity check. -/
theorem runBatch_loop (gen : Int → Int) (b : Batch) (s : RState)
    (hnd : 1 ≤ b.inDims.length)
    (hshape : outputInitialized s = true → shapeMatches s b = true)
    (hn : ¬ b.inDims.headD 0 = 0)
    (hvs : s.visitScalar = true) (hneg : ¬ s.numVisited < 0)
    (hlen : (match b.oids with
             | some l => l.length == b.inDims.headD 0
             | none => true) = true) :
    runBatch gen b s =
      (if (runRows b.oids.isSome gen (pairsOf b) (resizedState b s)).numVisited
          == s.numVisited
            + (countNewEntries b.oids (b.inDims.headD 0) s.objectToPosMap : Int)
       then (runRows b.oids.isSome gen (pairsOf b) (resizedState b s), none)
       else (runRows b.oids.isSome gen (pairsOf b) (resizedState b s),
             some Err.internalFault)) := by
  have hcond : (outputInitialized s && !(shapeMatches s b)) = false := by
    cases h : outputInitialized s
    · rfl
    · rw [hshape h]
      rfl
  unfold runBatch
  rw [if_neg (by omega), hcond]
  simp only [Bool.false_eq_true, if_false]
  rw [if_neg hn, resizedState_visitScalar, hvs]
  simp only [Bool.not_true, Bool.false_eq_true, if_false]
  rw [resizedState_numVisited, if_neg hneg, hlen]
  simp only [Bool.not_true, Bool.false_eq_true, if_false]

/-- C8 (amended): on every nonempty batch that passes the earlier shape
checks, a non-scalar visit counter fails with ShapeMismatch and a
negative stored count fails with ConfigurationError, in that order,
before any row is processed (visit count, reservoir contents and both
index structures are untouched); zero-row batches return without
running these checks. -/
theorem c8_amended_visit_checks (gen : Int → Int) (b : Batch) (s : RState)
    (hnd : 1 ≤ b.inDims.length)
    (hshape : outputInitialized s = true → shapeMatches s b = true)
    (hn : b.inDims.headD 0 ≠ 0) :
    (s.visitScalar = false →
      ∃ s1, runBatch gen b s = (s1, some Err.shapeMismatch)
        ∧ s1.reservoir = s.reservoir ∧ s1.numVisited = s.numVisited
        ∧ s1.objectToPosMap = s.objectToPosMap ∧ s1.posToObject = s.posToObject)
    ∧ (s.visitScalar = true → s.numVisited < 0 →
      ∃ s1, runBatch gen b s = (s1, some Err.configError)
        ∧ s1.reservoir = s.reservoir ∧ s1.numVisited = s.numVisited
        ∧ s1.objectToPosMap = s.objectToPosMap ∧ s1.posToObject = s.posToObject) := by
  constructor
  · intro hvs
    exact ⟨resizedState b s, runBatch_visitShapeFail gen b s hnd hshape hn hvs,
      resizedState_reservoir b s, resizedState_numVisited b s,
      resizedState_map b s, resizedState_posToObject b s⟩
  · intro hvs hneg
    exact ⟨resizedState b s, runBatch_negVisitFail gen b s hnd hshape hn hvs hneg,
      resizedState_reservoir b s, resizedState_numVisited b s,
      resizedState_map b s, resizedState_posToObject b s⟩

theorem c8_amended_visit_checks_witness :
    (({ initState 2 with visitScalar := false } : RState).visitScalar = false
      ∧ ([1] : List Nat).headD 0 ≠ 0)
    ∧ ∃ s1, runBatch (fun _ => 0) { inDims := [1], rows := [5], oids := none }
        { initState 2 with visitScalar := false } = (s1, some Err.shapeMismatch)
        ∧ s1.reservoir = ({ initState 2 with visitScalar := false } : RState).reservoir
        ∧ s1.numVisited = ({ initState 2 with visitScalar := false } : RState).numVisited
        ∧ s1.objectToPosMap
            = ({ initState 2 with visitScalar := false } : RState).objectToPosMap
        ∧ s1.posToObject
            = ({ initState 2 with visitScalar := false } : RState).posToObject :=
  ⟨⟨by decide, by decide⟩,
    (c8_amended_visit_checks (fun _ => 0) { inDims := [1], rows := [5], oids := none }
      { initState 2 with visitScalar := false } (by decide)
      (fun h => by exact absurd h (by decide)) (by decide)).1 rfl⟩

/-- C7 (amended): the id-length validation happens only after
`countNewEntries` and after the up-front resize; on a SizeMismatch
failure no row has been processed (slot contents, visit count and both
index structures are exactly as before), but the occupied size has
already been set to `min(capacity, occupiedBefore + min(countNew, capacity))`. -/
theorem c7_amended_size_check_after_resize (gen : Int → Int) (b : Batch)
    (s : RState) (l : List Int)
    (hnd : 1 ≤ b.inDims.length)
    (hshape : outputInitialized s = true → shapeMatches s b = true)
    (hn : b.inDims.headD 0 ≠ 0)
    (hvs : s.visitScalar = true) (hneg : ¬ s.numVisited < 0)
    (hoid : b.oids = some l) (hlen : l.length ≠ b.inDims.headD 0) :
    runBatch gen b s = (resizedState b s, some Err.sizeMismatch)
    ∧ (resizedState b s).reservoir = s.reservoir
    ∧ (resizedState b s).numVisited = s.numVisited
    ∧ (resizedState b s).objectToPosMap = s.objectToPosMap
    ∧ (resizedState b s).posToObject = s.posToObject
    ∧ ((if outputInitialized s then s.occ else 0) < s.cap →
        (resizedState b s).occ
          = min s.cap ((if outputInitialized s then s.occ else 0)
              + min (countNewEntries b.oids (b.inDims.headD 0) s.objectToPosMap)
                  s.cap)) := by
  refine ⟨runBatch_sizeFail gen b s l hnd hshape hn hvs hneg hoid hlen,
    resizedState_reservoir b s, resizedState_numVisited b s,
    resizedState_map b s, resizedState_posToObject b s, ?_⟩
  intro h
  unfold resizedState
  rw [if_pos h]

theorem c7_amended_size_check_after_resize_witness :
    (([5, 6] : List Int).length ≠ ([1] : List Nat).headD 0
      ∧ (initState 2).occ = 0)
    ∧ runBatch (fun _ => 0) { inDims := [1], rows := [10], oids := some [5, 6] }
        (initState 2)
      = (resizedState { inDims := [1], rows := [10], oids := some [5, 6] }
          (initState 2), some Err.sizeMismatch)
    ∧ (resizedState { inDims := [1], rows := [10], oids := some [5, 6] }
        (initState 2)).occ = 2 :=
  ⟨⟨by decide, by decide⟩,
    (c7_amended_size_check_after_resize (fun _ => 0)
      { inDims := [1], rows := [10], oids := some [5, 6] } (initState 2) [5, 6]
      (by decide) (fun h => by exact absurd h (by decide)) (by decide) (by decide)
      (by decide) rfl (by decide)).1,
    by decide⟩

/-! ### Association-map lemmas -/

theorem mapLookup_cons_eq (e : Int × Nat) (t : List (Int × Nat)) (o : Int)
    (h : e.1 = o) : mapLookup (e :: t) o = some e.2 := by
  unfold mapLookup
  rw [if_pos h]

theorem mapLookup_cons_ne (e : Int × Nat) (t : List (Int × Nat)) (o : Int)
    (h : ¬ e.1 = o) : mapLookup (e :: t) o = mapLookup t o := by
  conv_lhs => unfold mapLookup
  rw [if_neg h]

theorem mapLookup_erase (m : List (Int × Nat)) (k o : Int) :
    mapLookup (mapErase m k) o = if o = k then none else mapLookup m o := by
  induction m with
  | nil =>
    unfold mapErase mapLookup
    split <;> rfl
  | cons e t ih =>
    unfold mapErase
    by_cases h : e.1 = k
    · rw [if_pos h, ih]
      by_cases ho : o = k
      · rw [if_pos ho, if_pos ho]
      · rw [if_neg ho, if_neg ho, mapLookup_cons_ne e t o (fun hh => ho (by rw [← hh, h]))]
    · rw [if_neg h]
      by_cases he : e.1 = o
      · rw [mapLookup_cons_eq e _ o he, mapLookup_cons_eq e t o he,
          if_neg (fun ho => h (by rw [he, ho]))]
      · rw [mapLookup_cons_ne e _ o he, mapLookup_cons_ne e t o he, ih]

theorem mapLookup_emplace_ne (m : List (Int × Nat)) (k : Int) (v : Nat) (o : Int)
    (h : o ≠ k) : mapLookup (mapEmplace m k v) o = mapLookup m o := by
  unfold mapEmplace
  split
  · rfl
  · exact mapLookup_cons_ne (k, v) m o (fun hh => h hh.symm)

theorem mapLookup_emplace_absent (m : List (Int × Nat)) (k : Int) (v : Nat)
    (h : mapLookup m k = none) : mapLookup (mapEmplace m k v) k = some v := by
  unfold mapEmplace
  rw [h]
  simp only [Option.isSome_none, Bool.false_eq_true, if_false]
  exact mapLookup_cons_eq (k, v) m k rfl

/-! ### Loop-level bookkeeping -/

/-- `processRow` with tracking enabled, map update shape. -/
theorem processRow_map_true (gen : Int → Int) (oid : Int) (row : Block)
    (s : RState)
    (h : (mapLookup s.objectToPosMap oid).isSome = false) :
    (processRow true gen oid row s).objectToPosMap =
      (if samplePos s.cap s.numVisited (gen s.numVisited) < 0 then s.objectToPosMap
       else
         mapEmplace
           (mapErase s.objectToPosMap
             (s.posToObject.getD (samplePos s.cap s.numVisited (gen s.numVisited)).toNat 0))
           oid (samplePos s.cap s.numVisited (gen s.numVisited)).toNat) := by
  rw [processRow_map true gen oid row s (by rw [h]; rfl)]
  split
  · rfl
  · rw [if_pos rfl]

/-- `processRow` with tracking enabled, owner-array update shape. -/
theorem processRow_posToObject_true (gen : Int → Int) (oid : Int) (row : Block)
    (s : RState)
    (h : (mapLookup s.objectToPosMap oid).isSome = false) :
    (processRow true gen oid row s).posToObject =
      (if samplePos s.cap s.numVisited (gen s.numVisited) < 0 then s.posToObject
       else s.posToObject.set
         (samplePos s.cap s.numVisited (gen s.numVisited)).toNat oid) := by
  rw [processRow_posToObject true gen oid row s (by rw [h]; rfl)]
  split
  · rfl
  · rw [if_pos rfl]

theorem runRows_nil (tracking : Bool) (gen : Int → Int) (s : RState) :
    runRows tracking gen [] s = s := rfl

theorem runRows_cons (tracking : Bool) (gen : Int → Int) (x : Int × Block)
    (l : List (Int × Block)) (s : RState) :
    runRows tracking gen (x :: l) s
      = runRows tracking gen l (processRow tracking gen x.1 x.2 s) := rfl

theorem runRows_occ (tracking : Bool) (gen : Int → Int) :
    ∀ (l : List (Int × Block)) (s : RState),
      (runRows tracking gen l s).occ = s.occ := by
  intro l
  induction l with
  | nil => intro s; rfl
  | cons x t ih =>
    intro s
    rw [runRows_cons, ih, processRow_occ]

theorem runRows_cap (tracking : Bool) (gen : Int → Int) :
    ∀ (l : List (Int × Block)) (s : RState),
      (runRows tracking gen l s).cap = s.cap := by
  intro l
  induction l with
  | nil => intro s; rfl
  | cons x t ih =>
    intro s
    rw [runRows_cons, ih, processRow_cap]

/-- After processing one row, every key bound in the map was either the
row's own key or was already bound before. -/
theorem processRow_keysSub (gen : Int → Int) (oid : Int) (row : Block)
    (s : RState) (S : List Int)
    (hsub : ∀ o, (mapLookup s.objectToPosMap o).isSome = true → o ∈ S) :
    ∀ o, (mapLookup (processRow true gen oid row s).objectToPosMap o).isSome = true
      → o ∈ oid :: S := by
  intro o ho
  by_cases hpre : (mapLookup s.objectToPosMap oid).isSome = true
  · rw [processRow_skip _ _ _ _ _ (by rw [hpre]; rfl)] at ho
    exact List.mem_cons_of_mem _ (hsub o ho)
  · have hpre : (mapLookup s.objectToPosMap oid).isSome = false :=
      Bool.not_eq_true _ ▸ Bool.eq_false_iff.mpr hpre
    rw [processRow_map_true gen oid row s hpre] at ho
    by_cases hd : samplePos s.cap s.numVisited (gen s.numVisited) < 0
    · rw [if_pos hd] at ho
      exact List.mem_cons_of_mem _ (hsub o ho)
    · rw [if_neg hd] at ho
      by_cases hoo : o = oid
      · exact hoo ▸ List.mem_cons_self _ _
      · rw [mapLookup_emplace_ne _ _ _ _ hoo, mapLookup_erase] at ho
        by_cases hold : o = s.posToObject.getD
            (samplePos s.cap s.numVisited (gen s.numVisited)).toNat 0
        · rw [if_pos hold] at ho
          exact absurd ho (by decide)
        · rw [if_neg hold] at ho
          exact List.mem_cons_of_mem _ (hsub o ho)

/-- Feeding rows whose keys avoid everything already bound (and are
pairwise distinct) advances the visit count once per row. -/
theorem runRows_visited (gen : Int → Int) :
    ∀ (l : List (Int × Block)) (s : RState) (S : List Int),
      (∀ o, (mapLookup s.objectToPosMap o).isSome = true → o ∈ S) →
      (∀ x ∈ l, x.1 ∉ S) →
      (l.map Prod.fst).Nodup →
      (runRows true gen l s).numVisited = s.numVisited + l.length := by
  intro l
  induction l with
  | nil =>
    intro s S _ _ _
    simp [runRows_nil]
  | cons x t ih =>
    intro s S hsub hfresh hnd
    have hskip : (true && (mapLookup s.objectToPosMap x.1).isSome) = false := by
      cases h : (mapLookup s.objectToPosMap x.1).isSome
      · rfl
      · exact absurd (hsub x.1 h) (hfresh x (List.mem_cons_self _ _))
    rw [runRows_cons,
      ih (processRow true gen x.1 x.2 s) (x.1 :: S)
        (processRow_keysSub gen x.1 x.2 s S hsub)
        (fun y hy hmem => by
          rcases List.mem_cons.mp hmem with h1 | h2
          · have hym : y.1 ∈ t.map Prod.fst := List.mem_map_of_mem _ hy
            rw [h1] at hym
            exact (List.nodup_cons.mp hnd).1 hym
          · exact hfresh y (List.mem_cons_of_mem _ hy) h2)
        (List.nodup_cons.mp hnd).2,
      processRow_numVisited _ _ _ _ _ hskip]
    simp only [List.length_cons]
    push_cast
    ring

/-- Sequential block writes: copy `vals` into consecutive slots
starting at `p`. -/
def listWrite (res : List Block) (p : Nat) (vals : List Block) : List Block :=
  match vals with
  | [] => res
  | x :: xs => listWrite (res.set p x) (p + 1) xs

theorem listWrite_shift (a : Block) :
    ∀ (vals : List Block) (res : List Block) (p : Nat),
      listWrite (a :: res) (p + 1) vals = a :: listWrite res p vals := by
  intro vals
  induction vals with
  | nil => intro res p; rfl
  | cons x xs ih =>
    intro res p
    show listWrite (a :: res.set p x) (p + 1 + 1) xs
      = a :: listWrite (res.set p x) (p + 1) xs
    exact ih (res.set p x) (p + 1)

theorem listWrite_full :
    ∀ (vals junk : List Block), vals.length = junk.length →
      listWrite junk 0 vals = vals := by
  intro vals
  induction vals with
  | nil =>
    intro junk h
    have : junk = [] := List.length_eq_zero.mp h.symm
    rw [this]
    rfl
  | cons x xs ih =>
    intro junk h
    cases junk with
    | nil => exact absurd h (by simp)
    | cons j js =>
      show listWrite ((j :: js).set 0 x) 1 xs = x :: xs
      have h1 : (j :: js).set 0 x = x :: js := rfl
      rw [h1, listWrite_shift, ih js (by simpa using h)]

theorem countNewEntries_empty (l : List Int) (n : Nat) :
    countNewEntries (some l) n [] = l.length := by
  unfold countNewEntries
  simp [mapLookup]

/-- During the append phase (enough free capacity for the whole list),
fresh distinct-keyed rows land in consecutive slots in arrival order. -/
theorem runRows_fill (gen : Int → Int) :
    ∀ (l : List (Int × Block)) (s : RState) (S : List Int),
      (∀ o, (mapLookup s.objectToPosMap o).isSome = true → o ∈ S) →
      (∀ x ∈ l, x.1 ∉ S) →
      (l.map Prod.fst).Nodup →
      0 ≤ s.numVisited →
      s.numVisited.toNat + l.length ≤ s.cap →
      (runRows true gen l s).reservoir
        = listWrite s.reservoir s.numVisited.toNat (l.map Prod.snd) := by
  intro l
  induction l with
  | nil =>
    intro s S _ _ _ _ _
    rfl
  | cons x t ih =>
    intro s S hsub hfresh hnd hv hcap
    have hskip : (true && (mapLookup s.objectToPosMap x.1).isSome) = false := by
      cases h : (mapLookup s.objectToPosMap x.1).isSome
      · rfl
      · exact absurd (hsub x.1 h) (hfresh x (List.mem_cons_self _ _))
    have hlt : s.numVisited < (s.cap : Int) := by
      simp only [List.length_cons] at hcap
      omega
    have hsp : samplePos s.cap s.numVisited (gen s.numVisited) = s.numVisited := by
      unfold samplePos
      rw [if_pos hlt]
    have hnneg : ¬ samplePos s.cap s.numVisited (gen s.numVisited) < 0 := by
      rw [hsp]
      omega
    have hres : (processRow true gen x.1 x.2 s).reservoir
        = s.reservoir.set s.numVisited.toNat x.2 := by
      rw [processRow_reservoir _ _ _ _ _ hskip, if_neg hnneg, hsp]
    have hnv : (processRow true gen x.1 x.2 s).numVisited = s.numVisited + 1 :=
      processRow_numVisited _ _ _ _ _ hskip
    rw [runRows_cons,
      ih (processRow true gen x.1 x.2 s) (x.1 :: S)
        (processRow_keysSub gen x.1 x.2 s S hsub)
        (fun y hy hmem => by
          rcases List.mem_cons.mp hmem with h1 | h2
          · have hym : y.1 ∈ t.map Prod.fst := List.mem_map_of_mem _ hy
            rw [h1] at hym
            exact (List.nodup_cons.mp hnd).1 hym
          · exact hfresh y (List.mem_cons_of_mem _ hy) h2)
        (List.nodup_cons.mp hnd).2
        (by rw [hnv]; omega)
        (by
          rw [hnv, processRow_cap]
          simp only [List.length_cons] at hcap
          omega),
      hres, hnv]
    have htn : (s.numVisited + 1).toNat = s.numVisited.toNat + 1 := by omega
    rw [htn]
    rfl

/-- C5: from the fresh state with capacity `C`, one batch of `C + k`
distinct-key rows succeeds; it leaves the visit count at `C + k` and
the occupied size at `C`, and when `k = 0` the `C` rows sit in slots
`0..C-1` in arrival order. -/
theorem c5_capacity_fill_and_overflow (C k : Nat) (gen : Int → Int)
    (rows : List Block) (oids : List Int) (hC : 1 ≤ C)
    (hr : rows.length = C + k) (ho : oids.length = C + k) (hnd : oids.Nodup) :
    ∃ s2, runBatch gen { inDims := [C + k], rows := rows, oids := some oids }
        (initState C) = (s2, none)
      ∧ s2.numVisited = ((C + k : Nat) : Int)
      ∧ s2.occ = C
      ∧ (k = 0 → s2.reservoir = rows) := by
  have hini : outputInitialized (initState C) = false := by
    simp [outputInitialized, initState]
  have hshape : outputInitialized (initState C) = true →
      shapeMatches (initState C) { inDims := [C + k], rows := rows, oids := some oids } = true := by
    intro h
    rw [hini] at h
    exact Bool.noConfusion h
  have hn : ¬ (({ inDims := [C + k], rows := rows, oids := some oids } : Batch).inDims.headD 0 = 0) := by
    show ¬ C + k = 0
    omega
  have hs1 : resizedState { inDims := [C + k], rows := rows, oids := some oids } (initState C)
      = { initState C with occ := C } := by
    unfold resizedState
    rw [hini]
    simp only [Bool.false_eq_true, if_false]
    rw [if_pos (by show 0 < C; omega)]
    have harith : min (initState C).cap (0 + min (countNewEntries (some oids)
        (([C + k] : List Nat).headD 0) (initState C).objectToPosMap)
          (initState C).cap) = C := by
      have h1 : countNewEntries (some oids) (([C + k] : List Nat).headD 0)
          (initState C).objectToPosMap = C + k := by
        show countNewEntries (some oids) (C + k) [] = C + k
        rw [countNewEntries_empty, ho]
      rw [h1]
      show min C (0 + min (C + k) C) = C
      omega
    rw [harith]
    rfl
  have hkeys : ∀ o, (mapLookup ({ initState C with occ := C } : RState).objectToPosMap o).isSome
      = true → o ∈ ([] : List Int) := by
    intro o hoo
    exact absurd hoo (by simp [mapLookup, initState])
  have hfresh : ∀ x ∈ oids.zip rows, x.1 ∉ ([] : List Int) :=
    fun x _ => List.not_mem_nil _
  have hfst : (oids.zip rows).map Prod.fst = oids :=
    List.map_fst_zip _ _ (by omega)
  have hsnd : (oids.zip rows).map Prod.snd = rows :=
    List.map_snd_zip _ _ (by omega)
  have hndz : ((oids.zip rows).map Prod.fst).Nodup := by
    rw [hfst]
    exact hnd
  have hlenz : (oids.zip rows).length = C + k := by
    rw [List.length_zip]
    omega
  have hv2 : (runRows true gen (oids.zip rows) { initState C with occ := C }).numVisited
      = ((C + k : Nat) : Int) := by
    rw [runRows_visited gen (oids.zip rows) _ [] hkeys hfresh hndz]
    show (0 : Int) + ((oids.zip rows).length : Int) = _
    rw [hlenz]
    omega
  have hcnt : countNewEntries (some oids)
      (({ inDims := [C + k], rows := rows, oids := some oids } : Batch).inDims.headD 0)
      (initState C).objectToPosMap = C + k := by
    show countNewEntries (some oids) (C + k) [] = C + k
    rw [countNewEntries_empty, ho]
  have hbeq : ((runRows true gen (oids.zip rows) { initState C with occ := C }).numVisited
      == (initState C).numVisited
        + ((countNewEntries (some oids)
            (({ inDims := [C + k], rows := rows, oids := some oids } : Batch).inDims.headD 0)
            (initState C).objectToPosMap : Nat) : Int)) = true := by
    rw [hv2, hcnt]
    show (((C + k : Nat) : Int) == 0 + ((C + k : Nat) : Int)) = true
    simp
  have heq : runBatch gen { inDims := [C + k], rows := rows, oids := some oids } (initState C)
      = (runRows true gen (oids.zip rows) { initState C with occ := C }, none) := by
    rw [runBatch_loop gen _ _ (by simp) hshape hn rfl
      (by show ¬ (0 : Int) < 0; decide) (by simp [ho]), hs1]
    exact if_pos hbeq
  refine ⟨runRows true gen (oids.zip rows) { initState C with occ := C }, heq, hv2, ?_, ?_⟩
  · rw [runRows_occ]
  · intro hk
    subst hk
    rw [runRows_fill gen (oids.zip rows) _ [] hkeys hfresh hndz
      (by show (0 : Int) ≤ 0; decide)
      (by
        rw [show ({ initState C with occ := C } : RState).numVisited.toNat = 0 from rfl,
          show ({ initState C with occ := C } : RState).cap = C from rfl, hlenz]
        omega),
      hsnd]
    show listWrite (List.replicate C 0) 0 rows = rows
    exact listWrite_full rows (List.replicate C 0) (by simp [hr])

theorem c5_capacity_fill_and_overflow_witness :
    ((1 ≤ 2 ∧ ([1, 2, 3] : List Int).Nodup)
      ∧ ([10, 20, 30] : List Block).length = 2 + 1)
    ∧ ∃ s2, runBatch (fun _ => 0)
        { inDims := [2 + 1], rows := [10, 20, 30], oids := some [1, 2, 3] }
        (initState 2) = (s2, none)
      ∧ s2.numVisited = ((2 + 1 : Nat) : Int)
      ∧ s2.occ = 2
      ∧ (1 = 0 → s2.reservoir = [10, 20, 30]) :=
  ⟨⟨⟨by decide, by decide⟩, by decide⟩,
    c5_capacity_fill_and_overflow 2 1 (fun _ => 0) [10, 20, 30] [1, 2, 3]
      (by decide) (by decide) (by decide) (by decide)⟩

/-! ### Support lemmas for the index-structure invariant -/

theorem listGetD_set_eq (l : List Int) :
    ∀ (p : Nat) (a : Int), p < l.length → (l.set p a).getD p 0 = a := by
  induction l with
  | nil =>
    intro p a h
    exact absurd h (by simp)
  | cons x t ih =>
    intro p a h
    cases p with
    | zero => rfl
    | succ q =>
      show (t.set q a).getD q 0 = a
      exact ih q a (by simpa using h)

theorem listGetD_set_ne (l : List Int) :
    ∀ (p q : Nat) (a : Int), q ≠ p → (l.set p a).getD q 0 = l.getD q 0 := by
  induction l with
  | nil =>
    intro p q a _
    rfl
  | cons x t ih =>
    intro p q a h
    cases p with
    | zero =>
      cases q with
      | zero => exact absurd rfl h
      | succ m => rfl
    | succ n =>
      cases q with
      | zero => rfl
      | succ m =>
        show (t.set n a).getD m 0 = t.getD m 0
        exact ih n m a (fun hh => h (by rw [hh]))

theorem listGetD_replicate (C : Nat) :
    ∀ p : Nat, (List.replicate C (0 : Int)).getD p 0 = 0 := by
  induction C with
  | zero =>
    intro p
    rfl
  | succ n ih =>
    intro p
    cases p with
    | zero => rfl
    | succ q => exact ih q

theorem mapLookup_eq_none_iff (m : List (Int × Nat)) (o : Int) :
    mapLookup m o = none ↔ o ∉ m.map Prod.fst := by
  induction m with
  | nil =>
    constructor
    · intro _ h
      exact absurd h (List.not_mem_nil o)
    · intro _
      rfl
  | cons e t ih =>
    constructor
    · intro h hmem
      by_cases he : e.1 = o
      · rw [mapLookup_cons_eq e t o he] at h
        exact Option.noConfusion h
      · rw [mapLookup_cons_ne e t o he] at h
        rcases List.mem_cons.mp hmem with h1 | h2
        · exact he h1.symm
        · exact (ih.mp h) h2
    · intro h
      have he : ¬ e.1 = o := fun hh => h (by rw [← hh]; exact List.mem_cons_self _ _)
      rw [mapLookup_cons_ne e t o he]
      exact ih.mpr (fun hm => h (List.mem_cons_of_mem _ hm))

theorem mapErase_keys (m : List (Int × Nat)) (k : Int) :
    (mapErase m k).map Prod.fst = (m.map Prod.fst).filter (fun x => x != k) := by
  induction m with
  | nil => rfl
  | cons e t ih =>
    unfold mapErase
    by_cases h : e.1 = k
    · rw [if_pos h, ih]
      show _ = List.filter _ (e.1 :: t.map Prod.fst)
      rw [List.filter_cons_of_neg (by simp [h])]
    · rw [if_neg h]
      show e.1 :: (mapErase t k).map Prod.fst = List.filter _ (e.1 :: t.map Prod.fst)
      rw [List.filter_cons_of_pos (by simp [h]), ih]

theorem mapErase_keys_nodup (m : List (Int × Nat)) (k : Int)
    (h : (m.map Prod.fst).Nodup) : ((mapErase m k).map Prod.fst).Nodup := by
  rw [mapErase_keys]
  exact h.filter _

/-- When the inserted key is absent, `emplace` after `erase` is a plain
cons. -/
theorem mapEmplace_erase_absent (m : List (Int × Nat)) (old oid : Int) (p : Nat)
    (h : mapLookup m oid = none) :
    mapEmplace (mapErase m old) oid p = (oid, p) :: mapErase m old := by
  unfold mapEmplace
  rw [mapLookup_erase]
  by_cases ho : oid = old
  · rw [if_pos ho]
    rfl
  · rw [if_neg ho, h]
    rfl

/-- Full invariant tying the visit counter, the owner array and the
key → slot map together (for runs whose keys avoid the zero sentinel):
the counter is nonnegative, the owner array spans the capacity, every
occupied slot has a nonzero owner that maps back to it, unoccupied
slots hold the sentinel, every map binding points at an occupied slot
owned by its key, and keys are unique. -/
def trackInv (s : RState) : Prop :=
  0 ≤ s.numVisited
  ∧ s.posToObject.length = s.cap
  ∧ (∀ p, p < occupiedCount s →
      s.posToObject.getD p 0 ≠ 0
      ∧ mapLookup s.objectToPosMap (s.posToObject.getD p 0) = some p)
  ∧ (∀ p, occupiedCount s ≤ p → s.posToObject.getD p 0 = 0)
  ∧ (∀ o q, mapLookup s.objectToPosMap o = some q →
      q < occupiedCount s ∧ s.posToObject.getD q 0 = o ∧ o ≠ 0)
  ∧ (s.objectToPosMap.map Prod.fst).Nodup

theorem processRow_trackInv (gen : Int → Int) (oid : Int) (row : Block)
    (s : RState) (hoid : oid ≠ 0) (hInv : trackInv s) :
    trackInv (processRow true gen oid row s) := by
  obtain ⟨hv0, hlen, hocc, hunocc, hmap, hnd⟩ := hInv
  by_cases hpre : (mapLookup s.objectToPosMap oid).isSome = true
  · rw [processRow_skip _ _ _ _ _ (by rw [hpre]; rfl)]
    exact ⟨hv0, hlen, hocc, hunocc, hmap, hnd⟩
  · have hpre : mapLookup s.objectToPosMap oid = none := by
      cases h : mapLookup s.objectToPosMap oid
      · rfl
      · rw [h] at hpre
        exact absurd rfl hpre
    have hpreb : (mapLookup s.objectToPosMap oid).isSome = false := by
      rw [hpre]
      rfl
    have hnv := processRow_numVisited true gen oid row s (by rw [hpreb]; rfl)
    have hcap := processRow_cap true gen oid row s
    have hmapeq := processRow_map_true gen oid row s hpreb
    have hpos2 := processRow_posToObject_true gen oid row s hpreb
    by_cases hd : samplePos s.cap s.numVisited (gen s.numVisited) < 0
    · -- discard: no structural change, counter advances
      have hge : ¬ s.numVisited < (s.cap : Int) := by
        intro hlt
        unfold samplePos at hd
        rw [if_pos hlt] at hd
        omega
      rw [if_pos hd] at hmapeq hpos2
      have hoccEq : occupiedCount (processRow true gen oid row s) = occupiedCount s := by
        unfold occupiedCount
        rw [hnv, hcap]
        omega
      refine ⟨by rw [hnv]; omega, ?_, ?_, ?_, ?_, ?_⟩
      · rw [hpos2, hcap]
        exact hlen
      · intro p hp
        rw [hoccEq] at hp
        rw [hpos2, hmapeq]
        exact hocc p hp
      · intro p hp
        rw [hoccEq] at hp
        rw [hpos2]
        exact hunocc p hp
      · intro o q hq
        rw [hmapeq] at hq
        rw [hoccEq, hpos2]
        exact hmap o q hq
      · rw [hmapeq]
        exact hnd
    · -- write at slot `pos.toNat`
      rw [if_neg hd] at hmapeq hpos2
      have hp0 : 0 ≤ samplePos s.cap s.numVisited (gen s.numVisited) := not_lt.mp hd
      have hmapeq : (processRow true gen oid row s).objectToPosMap
          = (oid, (samplePos s.cap s.numVisited (gen s.numVisited)).toNat)
            :: mapErase s.objectToPosMap
                (s.posToObject.getD
                  (samplePos s.cap s.numVisited (gen s.numVisited)).toNat 0) := by
        rw [hmapeq, mapEmplace_erase_absent _ _ _ _ hpre]
      have heraseNone : mapLookup (mapErase s.objectToPosMap
          (s.posToObject.getD
            (samplePos s.cap s.numVisited (gen s.numVisited)).toNat 0)) oid = none := by
        rw [mapLookup_erase]
        by_cases h : oid = s.posToObject.getD
            (samplePos s.cap s.numVisited (gen s.numVisited)).toNat 0
        · rw [if_pos h]
        · rw [if_neg h]
          exact hpre
      have hndNew : ((processRow true gen oid row s).objectToPosMap.map Prod.fst).Nodup := by
        rw [hmapeq]
        refine List.nodup_cons.mpr ⟨?_, mapErase_keys_nodup _ _ hnd⟩
        exact (mapLookup_eq_none_iff _ _).mp heraseNone
      by_cases hlt : s.numVisited < (s.cap : Int)
      · -- append at slot numVisited
        have hsp : samplePos s.cap s.numVisited (gen s.numVisited) = s.numVisited := by
          unfold samplePos
          rw [if_pos hlt]
        have hptn : (samplePos s.cap s.numVisited (gen s.numVisited)).toNat
            = s.numVisited.toNat := by rw [hsp]
        have hplt : s.numVisited.toNat < s.cap := by omega
        have hoccS : occupiedCount s = s.numVisited.toNat := by
          unfold occupiedCount
          omega
        have hoccA : occupiedCount (processRow true gen oid row s)
            = s.numVisited.toNat + 1 := by
          unfold occupiedCount
          rw [hnv, hcap]
          omega
        have hold0 : s.posToObject.getD
            (samplePos s.cap s.numVisited (gen s.numVisited)).toNat 0 = 0 := by
          rw [hptn]
          exact hunocc _ (le_of_eq hoccS)
        refine ⟨by rw [hnv]; omega, ?_, ?_, ?_, ?_, hndNew⟩
        · rw [hpos2, hcap, List.length_set]
          exact hlen
        · intro q hq
          rw [hoccA] at hq
          rw [hpos2, hmapeq, hptn]
          by_cases hqp : q = s.numVisited.toNat
          · subst hqp
            rw [listGetD_set_eq _ _ _ (by omega)]
            exact ⟨hoid, mapLookup_cons_eq _ _ _ rfl⟩
          · rw [listGetD_set_ne _ _ _ _ hqp]
            have hqlt : q < occupiedCount s := by omega
            obtain ⟨hne0, hlook⟩ := hocc q hqlt
            have hneoid : ¬ oid = s.posToObject.getD q 0 := by
              intro heq
              rw [← heq] at hlook
              rw [hpre] at hlook
              exact Option.noConfusion hlook
            have hold0q : s.posToObject.getD s.numVisited.toNat 0 = 0 := by
              rw [← hptn]
              exact hold0
            rw [mapLookup_cons_ne _ _ _ hneoid, mapLookup_erase,
              if_neg (by rw [hold0q]; exact hne0)]
            exact ⟨hne0, hlook⟩
        · intro q hq
          rw [hoccA] at hq
          rw [hpos2, hptn, listGetD_set_ne _ _ _ _ (by omega)]
          exact hunocc q (by omega)
        · intro o q hq
          rw [hmapeq] at hq
          rw [hoccA, hpos2, hptn]
          by_cases hoq : oid = o
          · rw [mapLookup_cons_eq _ _ _ hoq] at hq
            have hqeq : q = s.numVisited.toNat := by
              have := Option.some.inj hq
              omega
            subst hqeq
            refine ⟨by omega, ?_, by rw [← hoq]; exact hoid⟩
            rw [listGetD_set_eq _ _ _ (by omega), hoq]
          · rw [mapLookup_cons_ne _ _ _ hoq, mapLookup_erase] at hq
            by_cases hoo : o = s.posToObject.getD
                (samplePos s.cap s.numVisited (gen s.numVisited)).toNat 0
            · rw [if_pos hoo] at hq
              exact Option.noConfusion hq
            · rw [if_neg hoo] at hq
              obtain ⟨hqlt, hgd, hne0⟩ := hmap o q hq
              refine ⟨by omega, ?_, hne0⟩
              rw [listGetD_set_ne _ _ _ _ (by omega)]
              exact hgd
      · -- replace at the drawn slot, reservoir already full
        have hr : gen s.numVisited < (s.cap : Int) := by
          unfold samplePos at hd
          rw [if_neg hlt] at hd
          by_cases h : (s.cap : Int) ≤ gen s.numVisited
          · rw [if_pos h] at hd
            exact absurd hd (by omega)
          · omega
        have hsp : samplePos s.cap s.numVisited (gen s.numVisited)
            = gen s.numVisited := by
          unfold samplePos
          rw [if_neg hlt, if_neg (not_le.mpr hr)]
        have hplt : (samplePos s.cap s.numVisited (gen s.numVisited)).toNat
            < s.cap := by
          rw [hsp]
          omega
        have hoccS : occupiedCount s = s.cap := by
          unfold occupiedCount
          omega
        have hoccA : occupiedCount (processRow true gen oid row s) = s.cap := by
          unfold occupiedCount
          rw [hnv, hcap]
          omega
        obtain ⟨hold0, holdlook⟩ := hocc
          (samplePos s.cap s.numVisited (gen s.numVisited)).toNat
          (by rw [hoccS]; exact hplt)
        refine ⟨by rw [hnv]; omega, ?_, ?_, ?_, ?_, hndNew⟩
        · rw [hpos2, hcap, List.length_set]
          exact hlen
        · intro q hq
          rw [hoccA] at hq
          rw [hpos2, hmapeq]
          by_cases hqp : q = (samplePos s.cap s.numVisited (gen s.numVisited)).toNat
          · subst hqp
            rw [listGetD_set_eq _ _ _ (by omega)]
            exact ⟨hoid, mapLookup_cons_eq _ _ _ rfl⟩
          · rw [listGetD_set_ne _ _ _ _ hqp]
            have hqlt : q < occupiedCount s := by omega
            obtain ⟨hne0, hlook⟩ := hocc q hqlt
            have hneoid : ¬ oid = s.posToObject.getD q 0 := by
              intro heq
              rw [← heq] at hlook
              rw [hpre] at hlook
              exact Option.noConfusion hlook
            have hneold : ¬ s.posToObject.getD q 0 = s.posToObject.getD
                (samplePos s.cap s.numVisited (gen s.numVisited)).toNat 0 := by
              intro heq
              rw [heq] at hlook
              rw [holdlook] at hlook
              exact hqp (Option.some.inj hlook).symm
            rw [mapLookup_cons_ne _ _ _ hneoid, mapLookup_erase, if_neg hneold]
            exact ⟨hne0, hlook⟩
        · intro q hq
          rw [hoccA] at hq
          rw [hpos2, listGetD_set_ne _ _ _ _ (by omega)]
          exact hunocc q (by omega)
        · intro o q hq
          rw [hmapeq] at hq
          rw [hoccA, hpos2]
          by_cases hoq : oid = o
          · rw [mapLookup_cons_eq _ _ _ hoq] at hq
            have hqeq : q = (samplePos s.cap s.numVisited (gen s.numVisited)).toNat :=
              (Option.some.inj hq).symm
            subst hqeq
            refine ⟨by omega, ?_, by rw [← hoq]; exact hoid⟩
            rw [listGetD_set_eq _ _ _ (by omega), hoq]
          · rw [mapLookup_cons_ne _ _ _ hoq, mapLookup_erase] at hq
            by_cases hoo : o = s.posToObject.getD
                (samplePos s.cap s.numVisited (gen s.numVisited)).toNat 0
            · rw [if_pos hoo] at hq
              exact Option.noConfusion hq
            · rw [if_neg hoo] at hq
              obtain ⟨hqlt, hgd, hne0⟩ := hmap o q hq
              have hqp : q ≠ (samplePos s.cap s.numVisited (gen s.numVisited)).toNat := by
                intro heq
                rw [heq] at hgd
                exact hoo hgd.symm
              refine ⟨by omega, ?_, hne0⟩
              rw [listGetD_set_ne _ _ _ _ hqp]
              exact hgd

theorem runRows_trackInv (gen : Int → Int) :
    ∀ (l : List (Int × Block)) (s : RState),
      (∀ x ∈ l, x.1 ≠ 0) → trackInv s → trackInv (runRows true gen l s) := by
  intro l
  induction l with
  | nil =>
    intro s _ h
    exact h
  | cons x t ih =>
    intro s hnz h
    rw [runRows_cons]
    exact ih _ (fun y hy => hnz y (List.mem_cons_of_mem _ hy))
      (processRow_trackInv gen x.1 x.2 s (hnz x (List.mem_cons_self _ _)) h)

theorem trackInv_initState (C : Nat) : trackInv (initState C) := by
  refine ⟨le_refl 0, ?_, ?_, ?_, ?_, ?_⟩
  · show (List.replicate C (0 : Int)).length = C
    simp
  · intro p hp
    exact absurd hp (by show ¬ p < min (0 : Int).toNat C; omega)
  · intro p _
    show (List.replicate C (0 : Int)).getD p 0 = 0
    exact listGetD_replicate C p
  · intro o q hq
    exact absurd hq (by intro h; exact Option.noConfusion h)
  · show (List.map Prod.fst ([] : List (Int × Nat))).Nodup
    exact List.nodup_nil

/-- C3 (amended): when key tracking is enabled and every processed
object id is nonzero (distinct from the zero-initialized "unassigned"
owner sentinel), every reachable state satisfies the bijection: each
occupied slot's recorded owner maps back to exactly that slot, and no
key appears twice in the map; the property is preserved across every
append and replace because it holds after arbitrary row sequences. -/
theorem c3_amended_bijection (C : Nat) (gen : Int → Int)
    (l : List (Int × Block)) (hnz : ∀ x ∈ l, x.1 ≠ 0) :
    bijOk (runRows true gen l (initState C)) := by
  obtain ⟨_, _, hocc, _, _, hnd⟩ :=
    runRows_trackInv gen l (initState C) hnz (trackInv_initState C)
  exact ⟨fun p hp => (hocc p hp).2, hnd⟩

theorem c3_amended_bijection_witness :
    (∀ x ∈ ([(1, 10), (2, 20), (3, 30)] : List (Int × Block)), x.1 ≠ 0)
    ∧ bijOk (runRows true (fun _ => 0) [(1, 10), (2, 20), (3, 30)] (initState 2)) :=
  ⟨by decide,
    c3_amended_bijection 2 (fun _ => 0) [(1, 10), (2, 20), (3, 30)] (by decide)⟩

/-! ### Uniform-inclusion counting for the sampling loop (claim C6)

With key tracking off (no duplicate keys), the loop is classical
Algorithm R.  We count, over all draw sequences, the sequences after
which a given row is still in the reservoir.  A "draw sequence" for `k`
steps from visit count `i` assigns to the step at visit count `i + t` a
value in `[0, i + t]`; `totalW i k` is the number of such sequences and
`favCount j k s` counts, by direct recursion over `processRow`, the
sequences after which the canonical row with payload `j` (the stream
feeds row payload `= visit count`) is present. -/

def sumUpTo (f : Nat → Nat) : Nat → Nat
  | 0 => 0
  | n + 1 => sumUpTo f n + f n

def totalW : Nat → Nat → Nat
  | _, 0 => 1
  | i, k + 1 => (i + 1) * totalW (i + 1) k

def favCount (j : Nat) : Nat → RState → Nat
  | 0, s => if (j : Int) ∈ s.reservoir then 1 else 0
  | k + 1, s =>
      sumUpTo
        (fun d => favCount j k (processRow false (fun _ => (d : Int)) 0 s.numVisited s))
        (s.numVisited.toNat + 1)

/-- The first `C` rows of the canonical distinct stream, appended one
by one (draws are never consulted below capacity). -/
def appendIter : Nat → RState → RState
  | 0, s => s
  | m + 1, s => appendIter m (processRow false (fun _ => 0) 0 s.numVisited s)

def afterAppends (C : Nat) : RState := appendIter C (initState C)

theorem sumUpTo_congr (f g : Nat → Nat) :
    ∀ n, (∀ d, d < n → f d = g d) → sumUpTo f n = sumUpTo g n := by
  intro n
  induction n with
  | zero => intro _; rfl
  | succ n ih =>
    intro h
    show sumUpTo f n + f n = sumUpTo g n + g n
    rw [ih (fun d hd => h d (by omega)), h n (by omega)]

theorem sumUpTo_zero (f : Nat → Nat) :
    ∀ n, (∀ d, d < n → f d = 0) → sumUpTo f n = 0 := by
  intro n
  induction n with
  | zero => intro _; rfl
  | succ n ih =>
    intro h
    show sumUpTo f n + f n = 0
    rw [ih (fun d hd => h d (by omega)), h n (by omega)]

theorem sumUpTo_mul (f : Nat → Nat) (c : Nat) :
    ∀ n, sumUpTo (fun d => f d * c) n = sumUpTo f n * c := by
  intro n
  induction n with
  | zero => simp [sumUpTo]
  | succ n ih =>
    show sumUpTo (fun d => f d * c) n + f n * c = (sumUpTo f n + f n) * c
    rw [ih, Nat.add_mul]

theorem sumUpTo_const (G : Nat) : ∀ n, sumUpTo (fun _ => G) n = n * G := by
  intro n
  induction n with
  | zero => simp [sumUpTo]
  | succ n ih =>
    show sumUpTo (fun _ => G) n + G = (n + 1) * G
    rw [ih]
    ring

theorem sumUpTo_front (f : Nat → Nat) (G m : Nat) :
    ∀ n, m ≤ n → (∀ d, d < m → f d = G) → (∀ d, m ≤ d → d < n → f d = 0) →
      sumUpTo f n = m * G := by
  intro n
  induction n with
  | zero =>
    intro hm _ _
    have hm0 : m = 0 := by omega
    rw [hm0]
    simp [sumUpTo]
  | succ n ih =>
    intro hm hpre hpost
    show sumUpTo f n + f n = m * G
    by_cases hmn : m = n + 1
    · rw [hpre n (by omega),
        sumUpTo_congr f (fun _ => G) n (fun d hd => hpre d (by omega)),
        sumUpTo_const, hmn]
      ring
    · rw [hpost n (by omega) (by omega),
        ih (by omega) hpre (fun d h1 h2 => hpost d h1 (by omega))]
      omega

theorem sumUpTo_except (f : Nat → Nat) (G p : Nat) :
    ∀ n, p < n → f p = 0 → (∀ d, d < n → d ≠ p → f d = G) →
      sumUpTo f n = (n - 1) * G := by
  intro n
  induction n with
  | zero =>
    intro h
    exact absurd h (by omega)
  | succ n ih =>
    intro hp h0 hG
    show sumUpTo f n + f n = (n + 1 - 1) * G
    by_cases hpn : p = n
    · rw [hpn] at h0
      rw [h0, sumUpTo_congr f (fun _ => G) n
        (fun d hd => hG d (by omega) (by omega)), sumUpTo_const]
      simp
    · rw [hG n (by omega) (fun h => hpn h.symm),
        ih (by omega) h0 (fun d hd hdp => hG d (by omega) hdp)]
      have hn : 1 ≤ n := by omega
      cases n with
      | zero => omega
      | succ n2 =>
        show (n2 + 1 - 1) * G + G = (n2 + 1 + 1 - 1) * G
        simp only [Nat.add_sub_cancel]
        ring

theorem listMem_set (l : List Int) :
    ∀ (n : Nat) (a x : Int), x ∈ l.set n a → x ∈ l ∨ x = a := by
  induction l with
  | nil =>
    intro n a x h
    exact absurd h (List.not_mem_nil x)
  | cons y t ih =>
    intro n a x h
    cases n with
    | zero =>
      rcases List.mem_cons.mp h with h1 | h2
      · right
        exact h1
      · left
        exact List.mem_cons_of_mem _ h2
    | succ m =>
      rcases List.mem_cons.mp h with h1 | h2
      · left
        rw [h1]
        exact List.mem_cons_self _ _
      · rcases ih m a x h2 with h3 | h4
        · left
          exact List.mem_cons_of_mem _ h3
        · right
          exact h4

theorem stepD_numVisited (s : RState) (d : Nat) :
    (processRow false (fun _ => (d : Int)) 0 s.numVisited s).numVisited
      = s.numVisited + 1 :=
  processRow_numVisited false _ 0 s.numVisited s rfl

theorem stepD_cap (s : RState) (d : Nat) :
    (processRow false (fun _ => (d : Int)) 0 s.numVisited s).cap = s.cap :=
  processRow_cap false _ 0 s.numVisited s

theorem stepD_reservoir (s : RState) (i d : Nat) (hi : s.numVisited = (i : Int))
    (hcap : s.cap ≤ i) :
    (processRow false (fun _ => (d : Int)) 0 s.numVisited s).reservoir
      = (if d < s.cap then s.reservoir.set d (i : Int) else s.reservoir) := by
  have h0 := processRow_reservoir false (fun _ => (d : Int)) 0 s.numVisited s rfl
  simp only [] at h0
  rw [hi] at h0
  rw [hi, h0]
  unfold samplePos
  rw [if_neg (by omega : ¬ (i : Int) < (s.cap : Int))]
  by_cases hd : d < s.cap
  · rw [if_neg (by omega : ¬ (s.cap : Int) ≤ (d : Int)),
      if_neg (by omega : ¬ (d : Int) < 0), if_pos hd]
    simp
  · rw [if_pos (by omega : (s.cap : Int) ≤ (d : Int)),
      if_pos (by norm_num : (-1 : Int) < 0), if_neg hd]

/-- A row that is older than every remaining step and not in the
reservoir never returns: no draw sequence keeps it. -/
theorem favCount_pastGone (j : Nat) :
    ∀ (k : Nat) (s : RState) (i : Nat),
      s.numVisited = (i : Int) → s.cap ≤ i → j < i →
      (j : Int) ∉ s.reservoir → favCount j k s = 0 := by
  intro k
  induction k with
  | zero =>
    intro s i hi hcap hj hmem
    simp only [favCount]
    rw [if_neg hmem]
  | succ k ih =>
    intro s i hi hcap hj hmem
    simp only [favCount]
    have htn : s.numVisited.toNat + 1 = i + 1 := by
      rw [hi]
      omega
    rw [htn]
    apply sumUpTo_zero
    intro d _
    apply ih _ (i + 1)
    · rw [stepD_numVisited, hi]
      push_cast
      ring
    · rw [stepD_cap]
      omega
    · omega
    · rw [stepD_reservoir s i d hi hcap]
      by_cases hdc : d < s.cap
      · rw [if_pos hdc]
        intro hmem2
        rcases listMem_set _ _ _ _ hmem2 with h1 | h2
        · exact hmem h1
        · have hji : j = i := by exact_mod_cast h2
          omega
      · rw [if_neg hdc]
        exact hmem

/-- A row sitting at exactly one slot survives `k` further steps in
exactly an `i/(i+k)` fraction of the draw sequences. -/
theorem favCount_present (j : Nat) :
    ∀ (k : Nat) (s : RState) (i p : Nat),
      s.numVisited = (i : Int) → s.cap ≤ i → s.reservoir.length = s.cap →
      j < i →
      s.reservoir.get? p = some (j : Int) →
      (∀ q, s.reservoir.get? q = some (j : Int) → q = p) →
      favCount j k s * (i + k) = i * totalW i k := by
  intro k
  induction k with
  | zero =>
    intro s i p hi hcap hlen hj hget huniq
    simp only [favCount, totalW]
    rw [if_pos (List.mem_iff_get?.mpr ⟨p, hget⟩)]
    ring
  | succ k ih =>
    intro s i p hi hcap hlen hj hget huniq
    have hplen : p < s.reservoir.length := by
      by_contra hcon
      rw [List.get?_eq_none.mpr (by omega)] at hget
      exact Option.noConfusion hget
    have hpcap : p < s.cap := by omega
    simp only [favCount]
    have htn : s.numVisited.toNat + 1 = i + 1 := by
      rw [hi]
      omega
    rw [htn]
    have harr : i + (k + 1) = (i + 1) + k := by omega
    rw [harr, ← sumUpTo_mul]
    have hkey : ∀ d, d < i + 1 → d ≠ p →
        favCount j k (processRow false (fun _ => (d : Int)) 0 s.numVisited s)
          * ((i + 1) + k) = (i + 1) * totalW (i + 1) k := by
      intro d _ hdp
      by_cases hdc : d < s.cap
      · apply ih _ (i + 1) p
        · rw [stepD_numVisited, hi]
          push_cast
          ring
        · rw [stepD_cap]
          omega
        · rw [stepD_reservoir s i d hi hcap, if_pos hdc, List.length_set, stepD_cap]
          exact hlen
        · omega
        · rw [stepD_reservoir s i d hi hcap, if_pos hdc, List.get?_set_ne _ _ hdp]
          exact hget
        · intro q hq
          rw [stepD_reservoir s i d hi hcap, if_pos hdc] at hq
          by_cases hqd : q = d
          · rw [hqd, List.get?_set_eq_of_lt _ (by omega)] at hq
            have h2 : (i : Int) = (j : Int) := Option.some.inj hq
            have h3 : i = j := by exact_mod_cast h2
            omega
          · rw [List.get?_set_ne _ _ (fun hh => hqd hh.symm)] at hq
            exact huniq q hq
      · apply ih _ (i + 1) p
        · rw [stepD_numVisited, hi]
          push_cast
          ring
        · rw [stepD_cap]
          omega
        · rw [stepD_reservoir s i d hi hcap, if_neg hdc, stepD_cap]
          exact hlen
        · omega
        · rw [stepD_reservoir s i d hi hcap, if_neg hdc]
          exact hget
        · intro q hq
          rw [stepD_reservoir s i d hi hcap, if_neg hdc] at hq
          exact huniq q hq
    have hzero : favCount j k (processRow false (fun _ => (p : Int)) 0 s.numVisited s)
        * ((i + 1) + k) = 0 := by
      have hz : favCount j k (processRow false (fun _ => (p : Int)) 0 s.numVisited s)
          = 0 := by
        apply favCount_pastGone j k _ (i + 1)
        · rw [stepD_numVisited, hi]
          push_cast
          ring
        · rw [stepD_cap]
          omega
        · omega
        · rw [stepD_reservoir s i p hi hcap, if_pos hpcap]
          intro hmem
          rcases List.mem_iff_get?.mp hmem with ⟨q, hq⟩
          by_cases hqp : q = p
          · rw [hqp, List.get?_set_eq_of_lt _ hplen] at hq
            have h2 : (i : Int) = (j : Int) := Option.some.inj hq
            have h3 : i = j := by exact_mod_cast h2
            omega
          · rw [List.get?_set_ne _ _ (fun hh => hqp hh.symm)] at hq
            exact hqp (huniq q hq)
      rw [hz]
      ring
    rw [sumUpTo_except _ ((i + 1) * totalW (i + 1) k) p (i + 1) (by omega) hzero hkey]
    simp only [totalW, Nat.add_sub_cancel]

/-- A row not yet fed (its payload equals a future visit count) ends up
kept in exactly a `cap/(i+k)` fraction of the draw sequences. -/
theorem favCount_future (j : Nat) :
    ∀ (k : Nat) (s : RState) (i : Nat),
      s.numVisited = (i : Int) → s.cap ≤ i → s.reservoir.length = s.cap →
      1 ≤ s.cap → i ≤ j → j < i + k → (j : Int) ∉ s.reservoir →
      favCount j k s * (i + k) = s.cap * totalW i k := by
  intro k
  induction k with
  | zero =>
    intro s i _ _ _ _ hij hjk _
    omega
  | succ k ih =>
    intro s i hi hcap hlen hc hij hjk hmem
    simp only [favCount]
    have htn : s.numVisited.toNat + 1 = i + 1 := by
      rw [hi]
      omega
    rw [htn]
    have harr : i + (k + 1) = (i + 1) + k := by omega
    rw [harr, ← sumUpTo_mul]
    by_cases hje : j = i
    · subst hje
      have hpre : ∀ d, d < s.cap →
          favCount j k (processRow false (fun _ => (d : Int)) 0 s.numVisited s)
            * ((j + 1) + k) = (j + 1) * totalW (j + 1) k := by
        intro d hdc
        apply favCount_present j k _ (j + 1) d
        · rw [stepD_numVisited, hi]
          push_cast
          ring
        · rw [stepD_cap]
          omega
        · rw [stepD_reservoir s j d hi hcap, if_pos hdc, List.length_set, stepD_cap]
          exact hlen
        · omega
        · rw [stepD_reservoir s j d hi hcap, if_pos hdc,
            List.get?_set_eq_of_lt _ (by omega)]
        · intro q hq
          rw [stepD_reservoir s j d hi hcap, if_pos hdc] at hq
          by_cases hqd : q = d
          · exact hqd
          · rw [List.get?_set_ne _ _ (fun hh => hqd hh.symm)] at hq
            exact absurd (List.mem_iff_get?.mpr ⟨q, hq⟩) hmem
      have hpost : ∀ d, s.cap ≤ d → d < j + 1 →
          favCount j k (processRow false (fun _ => (d : Int)) 0 s.numVisited s)
            * ((j + 1) + k) = 0 := by
        intro d h1 _
        have hz : favCount j k (processRow false (fun _ => (d : Int)) 0 s.numVisited s)
            = 0 := by
          apply favCount_pastGone j k _ (j + 1)
          · rw [stepD_numVisited, hi]
            push_cast
            ring
          · rw [stepD_cap]
            omega
          · omega
          · rw [stepD_reservoir s j d hi hcap, if_neg (by omega)]
            exact hmem
        rw [hz]
        ring
      rw [sumUpTo_front _ ((j + 1) * totalW (j + 1) k) s.cap (j + 1) (by omega)
        hpre hpost]
      simp only [totalW]
    · have hstep : ∀ d, d < i + 1 →
          favCount j k (processRow false (fun _ => (d : Int)) 0 s.numVisited s)
            * ((i + 1) + k) = s.cap * totalW (i + 1) k := by
        intro d _
        have hres := ih (processRow false (fun _ => (d : Int)) 0 s.numVisited s) (i + 1)
          (by rw [stepD_numVisited, hi]; push_cast; ring)
          (by rw [stepD_cap]; omega)
          (by
            rw [stepD_reservoir s i d hi hcap, stepD_cap]
            by_cases hdc : d < s.cap
            · rw [if_pos hdc, List.length_set]
              exact hlen
            · rw [if_neg hdc]
              exact hlen)
          (by rw [stepD_cap]; exact hc)
          (by omega)
          (by omega)
          (by
            rw [stepD_reservoir s i d hi hcap]
            by_cases hdc : d < s.cap
            · rw [if_pos hdc]
              intro hmem2
              rcases listMem_set _ _ _ _ hmem2 with h1 | h2
              · exact hmem h1
              · have hji : j = i := by exact_mod_cast h2
                exact hje hji
            · rw [if_neg hdc]
              exact hmem)
        rw [stepD_cap] at hres
        exact hres
      rw [sumUpTo_congr _ (fun _ => s.cap * totalW (i + 1) k) (i + 1) ?congrArg,
        sumUpTo_const]
      · simp only [totalW]
        ring
      · intro d hd
        exact hstep d hd

theorem set_append_replicate (a b : Int) :
    ∀ (l : List Int) (m : Nat),
      (l ++ List.replicate (m + 1) a).set l.length b = l ++ b :: List.replicate m a := by
  intro l
  induction l with
  | nil =>
    intro m
    rw [List.nil_append, List.nil_append, List.replicate_succ]
    rfl
  | cons x t ih =>
    intro m
    show x :: (t ++ List.replicate (m + 1) a).set t.length b
      = x :: (t ++ b :: List.replicate m a)
    rw [ih]

/-- The canonical reservoir contents after the append phase: payloads
`0, 1, …, n-1` in slot order. -/
def rangeInt (n : Nat) : List Int := (List.range n).map (fun t : Nat => (t : Int))

theorem rangeInt_length (n : Nat) : (rangeInt n).length = n := by
  simp [rangeInt]

theorem rangeInt_get?_lt (n q : Nat) (h : q < n) :
    (rangeInt n).get? q = some ((q : Nat) : Int) := by
  unfold rangeInt
  rw [List.get?_map, List.get?_range h]
  rfl

theorem rangeInt_get?_ge (n q : Nat) (h : n ≤ q) : (rangeInt n).get? q = none := by
  apply List.get?_eq_none.mpr
  rw [rangeInt_length]
  exact h

theorem mem_rangeInt (n : Nat) (x : Int) :
    x ∈ rangeInt n ↔ ∃ t, t < n ∧ ((t : Nat) : Int) = x := by
  unfold rangeInt
  constructor
  · intro h
    rcases List.mem_map.mp h with ⟨t, ht, hx⟩
    exact ⟨t, List.mem_range.mp ht, hx⟩
  · intro h
    rcases h with ⟨t, ht, hx⟩
    exact List.mem_map.mpr ⟨t, List.mem_range.mpr ht, hx⟩

theorem appendIter_spec (C : Nat) :
    ∀ (m n : Nat) (s : RState),
      s.cap = C → s.numVisited = (n : Int) →
      s.reservoir = rangeInt n ++ List.replicate (C - n) 0 →
      n + m ≤ C →
      (appendIter m s).cap = C
      ∧ (appendIter m s).numVisited = ((n + m : Nat) : Int)
      ∧ (appendIter m s).reservoir = rangeInt (n + m)
          ++ List.replicate (C - (n + m)) 0 := by
  intro m
  induction m with
  | zero =>
    intro n s hcap hi hres _
    refine ⟨?_, ?_, ?_⟩
    · show s.cap = C
      exact hcap
    · show s.numVisited = ((n + 0 : Nat) : Int)
      rw [hi]
      norm_num
    · show s.reservoir = rangeInt (n + 0) ++ List.replicate (C - (n + 0)) 0
      rw [hres, Nat.add_zero]
  | succ m ih =>
    intro n s hcap hi hres hle
    have hres2 := processRow_reservoir false (fun _ => 0) 0 s.numVisited s rfl
    rw [hi] at hres2
    have hsp : ∀ r : Int, samplePos s.cap ((n : Nat) : Int) r = ((n : Nat) : Int) := by
      intro r
      unfold samplePos
      rw [if_pos (by rw [hcap]; omega)]
    rw [hsp] at hres2
    rw [if_neg (by omega : ¬ ((n : Nat) : Int) < 0)] at hres2
    have hres3 : (processRow false (fun _ => 0) 0 s.numVisited s).reservoir
        = rangeInt (n + 1) ++ List.replicate (C - (n + 1)) 0 := by
      rw [hi, hres2, hres]
      rw [show ((n : Nat) : Int).toNat = n from rfl]
      rw [show C - n = (C - (n + 1)) + 1 from by omega]
      have hsetl := set_append_replicate 0 ((n : Nat) : Int)
        (rangeInt n) (C - (n + 1))
      rw [rangeInt_length] at hsetl
      rw [hsetl]
      unfold rangeInt
      rw [List.range_succ, List.map_append, List.append_assoc]
      rfl
    obtain ⟨h1, h2, h3⟩ := ih (n + 1) (processRow false (fun _ => 0) 0 s.numVisited s)
      (by rw [processRow_cap]; exact hcap)
      (by
        rw [processRow_numVisited false _ 0 s.numVisited s rfl, hi]
        push_cast
        ring)
      hres3 (by omega)
    refine ⟨?_, ?_, ?_⟩
    · show (appendIter m (processRow false (fun _ => 0) 0 s.numVisited s)).cap = C
      exact h1
    · show (appendIter m (processRow false (fun _ => 0) 0 s.numVisited s)).numVisited
        = ((n + (m + 1) : Nat) : Int)
      rw [h2]
      push_cast
      ring
    · show (appendIter m (processRow false (fun _ => 0) 0 s.numVisited s)).reservoir
        = rangeInt (n + (m + 1)) ++ List.replicate (C - (n + (m + 1))) 0
      rw [h3, show (n + 1) + m = n + (m + 1) from by omega]

theorem afterAppends_spec (C : Nat) :
    (afterAppends C).cap = C
    ∧ (afterAppends C).numVisited = (C : Int)
    ∧ (afterAppends C).reservoir = rangeInt C := by
  obtain ⟨h1, h2, h3⟩ := appendIter_spec C C 0 (initState C) rfl rfl
    (by
      show List.replicate C (0 : Int) = rangeInt 0 ++ List.replicate (C - 0) 0
      simp [rangeInt])
    (by omega)
  unfold afterAppends
  refine ⟨h1, ?_, ?_⟩
  · rw [h2]
    norm_num
  · rw [h3]
    norm_num

/-- C6: over the uniform draw space, after a stream of `C + k` distinct
rows the number of draw sequences keeping row `j` in the reservoir,
times `C + k`, equals `C` times the number of all draw sequences —
i.e. each row is present with probability exactly `capacity / n`,
uniformly in `j` (hence independent of arrival position); and a
duplicate-key row is skipped identically, so duplicates never influence
the sample composition or the denominator. -/
theorem c6_uniform_inclusion (C k : Nat) (hC : 1 ≤ C) :
    (∀ j, j < C + k →
      favCount j k (afterAppends C) * (C + k) = C * totalW C k)
    ∧ (∀ (gen : Int → Int) (oid : Int) (row : Block) (s : RState),
        (mapLookup s.objectToPosMap oid).isSome = true →
        processRow true gen oid row s = s) := by
  obtain ⟨h1, h2, h3⟩ := afterAppends_spec C
  constructor
  · intro j hj
    by_cases hjc : j < C
    · have hmain := favCount_present j k (afterAppends C) C j h2 (by omega)
        (by rw [h3, rangeInt_length, h1])
        hjc
        (by rw [h3]; exact rangeInt_get?_lt C j hjc)
        (by
          intro q hq
          rw [h3] at hq
          by_cases hqc : q < C
          · rw [rangeInt_get?_lt C q hqc] at hq
            have h4 : ((q : Nat) : Int) = ((j : Nat) : Int) := Option.some.inj hq
            exact_mod_cast h4
          · rw [rangeInt_get?_ge C q (by omega)] at hq
            exact Option.noConfusion hq)
      exact hmain
    · have hmain := favCount_future j k (afterAppends C) C h2 (by omega)
        (by rw [h3, rangeInt_length, h1])
        (by omega)
        (by omega) hj
        (by
          rw [h3]
          intro hmem
          rcases (mem_rangeInt C _).mp hmem with ⟨t, ht, hx⟩
          have h4 : t = j := by exact_mod_cast hx
          omega)
      rw [h1] at hmain
      exact hmain
  · intro gen oid row s h
    exact processRow_skip true gen oid row s (by rw [h]; rfl)

theorem c6_uniform_inclusion_witness :
    (1 ≤ 1 ∧ 1 < 1 + 1)
    ∧ favCount 1 1 (afterAppends 1) * (1 + 1) = 1 * totalW 1 1 :=
  ⟨⟨by decide, by decide⟩,
    (c6_uniform_inclusion 1 1 (by decide)).1 1 (by decide)⟩
